import Mathlib

/-!
Shallow embedding of `nics_total_by_year.py`, a single-file tool that
extracts NICS firearm background-check totals from the text of a tabular
PDF report.  Page texts are modelled as `List Char` (the linear text that
`page.extract_text() or ""` yields); the extraction pipeline, the two
dataframes and the CLI driver are translated definition by definition
from the Python source.  Regular expressions used by the source are
rendered as explicit character-level scanners with the same matching
semantics (word boundaries, case-insensitivity, greedy repetition,
left-to-right non-overlapping `findall`).
-/

namespace NICS

/-- Python `\s` character class: `[ \t\n\r\f\v]` (ASCII whitespace). -/
def isSpaceChar (c : Char) : Bool :=
  c = ' ' || c = '\t' || c = '\n' || c = '\r' || c = '\x0c' || c = '\x0b'

/-- Python regex `\d` on the report text: an ASCII digit. -/
def isDigitChar (c : Char) : Bool :=
  '0' ≤ c && c ≤ '9'

/-- An ASCII letter, as matched by `[A-Za-z]`. -/
def isLetterChar (c : Char) : Bool :=
  ('A' ≤ c && c ≤ 'Z') || ('a' ≤ c && c ≤ 'z')

/-- A regex word character (`\w`), used for `\b` word boundaries. -/
def isWordChar (c : Char) : Bool :=
  isLetterChar c || isDigitChar c || c = '_'

/-- Python `str.strip()`: drop whitespace from both ends. -/
def pstrip (cs : List Char) : List Char :=
  ((cs.dropWhile isSpaceChar).reverse.dropWhile isSpaceChar).reverse

/-- Python `str.startswith(p)`. -/
def pstartswith (cs p : List Char) : Bool :=
  p.isPrefixOf cs

/-- Python substring containment `p in cs`. -/
def containsSub : List Char → List Char → Bool
  | [], p => p.isEmpty
  | c :: rest, p => p.isPrefixOf (c :: rest) || containsSub rest p

/-- Python `str.lower()` (ASCII case folding suffices for the report text). -/
def plower (cs : List Char) : List Char :=
  cs.map Char.toLower

/-- Python `str.splitlines()` restricted to the line breaks that occur in
extracted PDF text: `\r\n`, `\r`, `\n`.  No trailing empty line is
produced for a trailing line break, and the empty string yields `[]`. -/
def splitlinesAux : List Char → List Char → List (List Char)
  | [], acc => if acc.isEmpty then [] else [acc.reverse]
  | '\r' :: '\n' :: rest, acc => acc.reverse :: splitlinesAux rest []
  | '\r' :: rest, acc => acc.reverse :: splitlinesAux rest []
  | '\n' :: rest, acc => acc.reverse :: splitlinesAux rest []
  | c :: rest, acc => splitlinesAux rest (c :: acc)

def splitlines (cs : List Char) : List (List Char) :=
  splitlinesAux cs []

/-! ### Regex & constants (source lines 13-33) -/

/-- `MONTHS_ABBR` from the source. -/
def MONTHS_ABBR : List (List Char) :=
  ["Jan","Feb","Mar","Apr","May","Jun","Jul","Aug","Sep","Oct","Nov","Dec"].map
    String.data

/-- `MONTHS_FULL` from the source. -/
def MONTHS_FULL : List (List Char) :=
  ["January","February","March","April","May","June","July","August",
   "September","October","November","December"].map String.data

/-- `MONTH_TO_IDX`: canonical full month name to 1-based index.  Modelled as
lookup of the position in `MONTHS_FULL`. -/
def monthToIdxAux : List (List Char) → Nat → List Char → Option Nat
  | [], _, _ => none
  | m :: ms, i, name => if name = m then some i else monthToIdxAux ms (i + 1) name

def MONTH_TO_IDX (name : List Char) : Option Nat :=
  monthToIdxAux MONTHS_FULL 1 name

/-- `IGNORE_PREFIXES` from the source. -/
def IGNORE_PREFIXES : List (List Char) :=
  ["NICS Firearm Background Checks", "Month/Year by State", "State / Territory",
   "NOTE", "Page", "January 1", "These statistics", "They do not represent"].map
    String.data

/-- `IGNORE_CONTAINS` from the source. -/
def IGNORE_CONTAINS : List (List Char) :=
  ["State / Territory", "Totals by State", "Totals by Year"].map String.data

/-- `IGNORE_EXACT` from the source. -/
def IGNORE_EXACT : List (List Char) :=
  ["", "Totals", "U.S. Total", "U. S. Total", "US Total", "U. S. Totals",
   "U.S. Totals"].map String.data

/-! ### `_numbers_in_line` (source lines 39-41)

`re.findall(r"\d[\d,]*", line)` collects maximal runs that start with a
digit and continue through digits and commas; `int(s.replace(",", ""))`
is the number formed by the digits of the run. -/

/-- Value of one matched token: the digits of the run, commas dropped. -/
def tokenVal (run : List Char) : Nat :=
  (run.filter isDigitChar).foldl (fun acc c => 10 * acc + (c.toNat - 48)) 0

def numbersInLineF : Nat → List Char → List Nat
  | 0, _ => []
  | _ + 1, [] => []
  | fuel + 1, c :: cs =>
    if isDigitChar c then
      let run := cs.takeWhile (fun d => isDigitChar d || d = ',')
      tokenVal (c :: run) :: numbersInLineF fuel (cs.drop run.length)
    else
      numbersInLineF fuel cs

/-- `_numbers_in_line`: all integer tokens in a line, commas stripped. -/
def numbersInLine (cs : List Char) : List Nat :=
  numbersInLineF cs.length cs

/-! ### `is_state_row` (source lines 44-64) -/

/-- `is_state_row`: heuristic accept/reject for a state/territory summary
line, translated clause by clause from the source. -/
def is_state_row (line : List Char) : Bool :=
  let s := pstrip line
  if IGNORE_EXACT.contains s then false
  else if IGNORE_PREFIXES.any (fun p => pstartswith s p) then false
  else if IGNORE_CONTAINS.any (fun c => containsSub s c) then false
  else if !(match s with | c :: _ => isLetterChar c | [] => false) then false
  else if containsSub s "U.S.".data || containsSub s "U. S.".data
          || pstartswith (plower s) "us ".data then false
  else if !(s.any (fun c => isDigitChar c)) then false
  else true

/-! ### Regex scanners

The scanners mirror `re.findall` / `re.search`: positions are tried left
to right; `findall` resumes after the end of each match (non-overlapping).
Scanning fuel is the length of the remaining text, which bounds the number
of scan positions. -/

/-- Match a literal pattern case-insensitively at the head; return the rest. -/
def matchCI : List Char → List Char → Option (List Char)
  | [], cs => some cs
  | _ :: _, [] => none
  | p :: ps, c :: cs => if c.toLower = p.toLower then matchCI ps cs else none

/-- Match `\s+` at the head (greedy; the following regex atoms are never
whitespace, so greediness needs no backtracking). -/
def dropSpaces1 : List Char → Option (List Char)
  | c :: rest => if isSpaceChar c then some (rest.dropWhile isSpaceChar) else none
  | [] => none

/-- Match `\d{4}` at the head, returning its value and the rest. -/
def take4Digits : List Char → Option (Nat × List Char)
  | a :: b :: c :: d :: rest =>
    if isDigitChar a && isDigitChar b && isDigitChar c && isDigitChar d then
      some ((a.toNat - 48) * 1000 + (b.toNat - 48) * 100 +
            (c.toNat - 48) * 10 + (d.toNat - 48), rest)
    else none
  | _ => none

/-- `\b` holds between a non-word (or absent) character and a word character. -/
def boundaryAfter (rest : List Char) : Bool :=
  match rest with
  | [] => true
  | c :: _ => !isWordChar c

/-- Try `YEAR_HEADER_RE` = `\bYear\s+(\d{4})\b` (IGNORECASE) at the current
position; `prevWord` says whether the preceding character is a word
character.  Returns the captured year and the rest of the text. -/
def matchYearHeaderAt (prevWord : Bool) (cs : List Char) :
    Option (Nat × List Char) :=
  if prevWord then none
  else do
    let r1 ← matchCI "Year".data cs
    let r2 ← dropSpaces1 r1
    let (y, r3) ← take4Digits r2
    if boundaryAfter r3 then pure (y, r3) else none

/-- `YEAR_HEADER_RE.findall`: left-to-right, non-overlapping.  A match ends
in a digit, so after a match the previous character is a word character. -/
def scanYearHeaders : Nat → Bool → List Char → List Nat
  | 0, _, _ => []
  | _ + 1, _, [] => []
  | fuel + 1, prevWord, c :: cs =>
    match matchYearHeaderAt prevWord (c :: cs) with
    | some (y, rest) => y :: scanYearHeaders fuel true rest
    | none => scanYearHeaders fuel (isWordChar c) cs

def yearHeaderFindall (cs : List Char) : List Nat :=
  scanYearHeaders cs.length false cs

/-- `YEAR_HEADER_RE.search(line)`: the group of the first match, since
`findall` lists matches left to right. -/
def yearHeaderSearch (cs : List Char) : Option Nat :=
  (yearHeaderFindall cs).head?

/-- Try `ANY_YEAR_RE` = `\b(?:19|20)\d{2}\b` at the current position. -/
def matchAnyYearAt (prevWord : Bool) (cs : List Char) :
    Option (Nat × List Char) :=
  if prevWord then none
  else
    match cs with
    | a :: b :: c :: d :: rest =>
      if ((a = '1' && b = '9') || (a = '2' && b = '0')) &&
          isDigitChar c && isDigitChar d && boundaryAfter rest then
        some ((a.toNat - 48) * 1000 + (b.toNat - 48) * 100 +
              (c.toNat - 48) * 10 + (d.toNat - 48), rest)
      else none
    | _ => none

/-- `ANY_YEAR_RE.findall`: a match ends in a digit, so `prevWord` is true
after a match. -/
def scanAnyYears : Nat → Bool → List Char → List Nat
  | 0, _, _ => []
  | _ + 1, _, [] => []
  | fuel + 1, prevWord, c :: cs =>
    match matchAnyYearAt prevWord (c :: cs) with
    | some (y, rest) => y :: scanAnyYears fuel true rest
    | none => scanAnyYears fuel (isWordChar c) cs

def anyYearFindall (cs : List Char) : List Nat :=
  scanAnyYears cs.length false cs

/-- Match one of the twelve full month names case-insensitively at the
head.  No month name is a prefix of another, so the alternation is
deterministic; the canonical (capitalized) name is returned, which equals
`m.group(k).capitalize()` for the matched text. -/
def tryMonthsCI : List (List Char) → List Char → Option (List Char × List Char)
  | [], _ => none
  | m :: ms, cs =>
    match matchCI m cs with
    | some rest => some (m, rest)
    | none => tryMonthsCI ms cs

/-- Match `\d{1,2},` at the head.  Greedy with backtracking: two digits
followed by a comma, else one digit followed by a comma (if the second
character is a digit but no comma follows, the one-digit alternative
fails too, since that digit is not a comma). -/
def matchD12Comma : List Char → Option (List Char)
  | d1 :: d2 :: rest =>
    if isDigitChar d1 then
      if isDigitChar d2 then
        match rest with
        | ',' :: r => some r
        | _ => none
      else if d2 = ',' then some rest
      else none
    else none
  | _ => none

/-- Match `(?:19|20)\d{2}` at the head (no word boundary in this context). -/
def matchYear19or20 : List Char → Option (List Char)
  | a :: b :: c :: d :: rest =>
    if ((a = '1' && b = '9') || (a = '2' && b = '0')) &&
        isDigitChar c && isDigitChar d then some rest
    else none
  | _ => none

/-- Match `\s*-\s*` at the head. -/
def matchDashSpaced (cs : List Char) : Option (List Char) :=
  match cs.dropWhile isSpaceChar with
  | '-' :: r => some (r.dropWhile isSpaceChar)
  | _ => none

/-- Try `HEADER_RANGE_RE` at the current position, returning the canonical
name of the second (end) month of the range, i.e. `m.group(2).capitalize()`. -/
def matchHeaderRangeAt (cs : List Char) : Option (List Char) := do
  let (_, r1) ← tryMonthsCI MONTHS_FULL cs
  let r2 ← dropSpaces1 r1
  let r3 ← matchD12Comma r2
  let r4 ← dropSpaces1 r3
  let r5 ← matchYear19or20 r4
  let r6 ← matchDashSpaced r5
  let (m2, r7) ← tryMonthsCI MONTHS_FULL r6
  let r8 ← dropSpaces1 r7
  let r9 ← matchD12Comma r8
  let r10 ← dropSpaces1 r9
  let _ ← matchYear19or20 r10
  pure m2

/-- `HEADER_RANGE_RE.search`: first (leftmost) match. -/
def headerRangeSearchF : Nat → List Char → Option (List Char)
  | 0, _ => none
  | _ + 1, [] => none
  | fuel + 1, c :: cs =>
    match matchHeaderRangeAt (c :: cs) with
    | some m2 => some m2
    | none => headerRangeSearchF fuel cs

def headerRangeSearch (cs : List Char) : Option (List Char) :=
  headerRangeSearchF cs.length cs

/-! ### Year / end-month inference (source lines 67-99) -/

/-- Python `max` of a nonempty list, `none` on the empty list. -/
def pymax : List Nat → Option Nat
  | [] => none
  | x :: xs => some (xs.foldl max x)

/-- `_infer_year_for_page`: prefer the last explicit `Year ####` header,
else the maximum plausible (≥ 1998) 4-digit year on the page, else the
carried-over year. -/
def infer_year_for_page (text : List Char) (current_year : Option Nat) :
    Option Nat :=
  let page_years := yearHeaderFindall text
  match page_years.getLast? with
  | some y => some y
  | none =>
    let any_years := (anyYearFindall text).filter (fun y => 1998 ≤ y)
    match pymax any_years with
    | some m => some m
    | none => current_year

/-- The fallback loop of `_infer_end_month_for_page`: the 1-based index of
the last month of `MONTHS_FULL` occurring (case-sensitively) in the text,
or the default. -/
def lastMonthLoop (text : List Char) (dflt : Nat) : Nat :=
  (List.enumFrom 1 MONTHS_FULL).foldl
    (fun acc p => if containsSub text p.2 then p.1 else acc) dflt

/-- `_infer_end_month_for_page`: the end month of a date-range header if one
is present, else the latest month name seen on the page, else the default. -/
def infer_end_month_for_page (text : List Char) (dflt : Nat) : Nat :=
  match headerRangeSearch text with
  | some name => (MONTH_TO_IDX name).getD dflt
  | none => lastMonthLoop text dflt

/-! ### Core extractor `extract_monthlies_by_year` (source lines 105-160)

The Python accumulator `monthly : dict[int, list[int]]` is modelled as an
association list in insertion order (new years are appended); the final
flattening sorts the keys, so insertion order does not reach the output. -/

/-- The mutable state of the extraction loop. -/
structure ExtractState where
  monthly : List (Nat × List Nat)
  current_year : Option Nat
  current_end_month : Nat
deriving Repr, DecidableEq

/-- Look up a year's bucket, as Python `monthly.get`/`in`. -/
def bucketOf (monthly : List (Nat × List Nat)) (y : Nat) : Option (List Nat) :=
  monthly.lookup y

/-- `monthly[year][i] += vals[i] for i in range(k)`: add the first `k`
values elementwise into the front of the bucket. -/
def addVals : List Nat → List Nat → Nat → List Nat
  | base, _, 0 => base
  | [], _, _ + 1 => []
  | base, [], _ + 1 => base
  | b :: bs, v :: vs, k + 1 => (b + v) :: addVals bs vs k

/-- The two update lines of the source: create a fresh 12-zero bucket for a
year not seen before (dict insertion appends), then add the month values
into the first `k` slots of that bucket. -/
def dictUpdate (monthly : List (Nat × List Nat)) (cy : Nat)
    (vals : List Nat) (k : Nat) : List (Nat × List Nat) :=
  let m0 := if (bucketOf monthly cy).isSome then monthly
            else monthly ++ [(cy, List.replicate 12 0)]
  m0.map fun p => if p.1 = cy then (p.1, addVals p.2 vals k) else p

/-- One iteration of the inner `for raw_line in text.splitlines()` loop. -/
def processLine (st : ExtractState) (raw_line : List Char) : ExtractState :=
  let line := pstrip raw_line
  match yearHeaderSearch line with
  | some y => { st with current_year := some y }
  | none =>
    match st.current_year with
    | none => st
    | some cy =>
      if !is_state_row line then st
      else
        let nums := numbersInLine line
        let need := st.current_end_month + 1
        if nums.length < need then st
        else
          let months_vals := (nums.drop (nums.length - need)).dropLast
          if months_vals.length ≠ st.current_end_month then st
          else
            { st with
              monthly := dictUpdate st.monthly cy months_vals
                           st.current_end_month }

/-- One iteration of the outer `for page in pdf.pages` loop; `text` is
`page.extract_text() or ""`. -/
def processPage (st : ExtractState) (text : List Char) : ExtractState :=
  let st1 : ExtractState :=
    { st with
      current_year := infer_year_for_page text st.current_year
      current_end_month := infer_end_month_for_page text st.current_end_month }
  (splitlines text).foldl processLine st1

/-- The whole page loop, from the initial state. -/
def runPages (pages : List (List Char)) : ExtractState :=
  pages.foldl processPage ⟨[], none, 12⟩

/-- One row of the monthly dataframe. -/
structure MonthRow where
  year : Nat
  month : Nat
  month_name : List Char
  total_background_checks : Nat
deriving Repr, DecidableEq

/-- Row order used by `sort_values(["year", "month"])`. -/
def monthRowLe (a b : MonthRow) : Prop :=
  a.year < b.year ∨ (a.year = b.year ∧ a.month ≤ b.month)

instance : DecidableRel monthRowLe := fun _ _ => by
  unfold monthRowLe; infer_instance

/-- The rows generated for one year: `enumerate(monthly[y], start=1)` with
the abbreviated month name. -/
def monthRowsFor (monthly : List (Nat × List Nat)) (y : Nat) : List MonthRow :=
  (List.enumFrom 1 ((bucketOf monthly y).getD [])).map fun p =>
    { year := y, month := p.1,
      month_name := (MONTHS_ABBR.get? (p.1 - 1)).getD [],
      total_background_checks := p.2 }

/-- Flattening of the accumulator: for each year in sorted key order, one
row per month 1..12 with the abbreviated month name. -/
def monthRowsOf (monthly : List (Nat × List Nat)) : List MonthRow :=
  (List.insertionSort (· ≤ ·) (monthly.map Prod.fst)).flatMap
    (monthRowsFor monthly)

/-- `pd.DataFrame(rows).sort_values(["year", "month"])`: on a nonempty row
list this sorts by (year, month) — rows have pairwise-distinct
(year, month) keys, so any sort yields the same list.  On the empty row
list, `pd.DataFrame([])` is a frame with no columns at all and
`sort_values` raises an uncaught `KeyError` on the missing sort key
`"year"`; the raise is modelled as `Except.error` carrying the key. -/
def dataFrameSortValues (rows : List MonthRow) :
    Except String (List MonthRow) :=
  if rows.isEmpty then .error "year"
  else .ok (List.insertionSort monthRowLe rows)

/-- `extract_monthlies_by_year`, as the list of dataframe rows, or the
`KeyError` that the final `sort_values` raises when no row was
accumulated. -/
def extract_monthlies_by_year (pages : List (List Char)) :
    Except String (List MonthRow) :=
  dataFrameSortValues (monthRowsOf (runPages pages).monthly)

/-! ### `extract_totals_by_year` (source lines 163-178) -/

/-- One row of the yearly dataframe. -/
structure YearRow where
  year : Nat
  total_background_checks : Nat
  basis : List Char
deriving Repr, DecidableEq

/-- Adjacent deduplication (used after sorting to model pandas group keys). -/
def dedupAdj : List Nat → List Nat
  | [] => []
  | [x] => [x]
  | x :: y :: r => if x = y then dedupAdj (y :: r) else x :: dedupAdj (y :: r)

/-- `groupby("year")` keys: the distinct years, ascending (pandas sorts
group keys; the later `sort_values("year")` is then a no-op). -/
def groupYears (rows : List MonthRow) : List Nat :=
  dedupAdj (List.insertionSort (· ≤ ·) (rows.map MonthRow.year))

/-- `extract_totals_by_year`: yearly totals as the per-year sums of the
monthly dataframe, with the constant `basis` column.  An exception raised
by the inner `extract_monthlies_by_year` call propagates; the
`monthly_df.empty` early return is kept from the source, although that
branch is unreachable (the inner call raises before an empty frame can be
returned). -/
def extract_totals_by_year (pages : List (List Char)) :
    Except String (List YearRow) :=
  match extract_monthlies_by_year pages with
  | .error e => .error e
  | .ok monthly_df =>
    if monthly_df.isEmpty then .ok []
    else
      .ok ((groupYears monthly_df).map fun y =>
        { year := y
          total_background_checks :=
            ((monthly_df.filter fun r => r.year = y).map
              MonthRow.total_background_checks).sum
          basis := "sum_of_months".data })

/-! ### CLI driver `main` (source lines 184-219)

The driver is modelled over its external effects: `argv` is the full
argument vector (`sys.argv`, program name included), `pathExists` is the
result of `pdf_path.exists()`, and `pages` are the page texts of the PDF.
Console output is modelled by the distinguishing message lines (the pandas
table bodies are opaque preview text); `wroteFiles` records whether the
two CSV files are written.  The Python `main` returns normally at the end,
so the interpreter exits with status 0 on that path; an uncaught exception
from the extraction calls aborts `main` before any print or write, the
interpreter prints a traceback to stderr and exits with status 1. -/

structure MainResult where
  exitCode : Nat
  printed : List String
  wroteFiles : Bool
deriving Repr, DecidableEq

def usageMessage : String :=
  "Usage: python nics_totals_by_year.py /path/to/NICS_Firearm_Checks_-_Month_Year_by_State.pdf"

def fileNotFoundMessage (p : String) : String :=
  "File not found: " ++ p

def yearTableHeader : String := "=== NATIONAL TOTALS BY YEAR ==="

def noYearTotalsMessage : String := "No year totals found."

def monthTableHeader : String := "=== NATIONAL TOTALS BY YEAR-MONTH (first 12 rows) ==="

def noMonthlyTotalsMessage : String := "No monthly totals found."

/-- The traceback the interpreter prints on an uncaught `KeyError` (the
Python output quotes the key). -/
def tracebackMessage (key : String) : String :=
  "Traceback (most recent call last): KeyError: " ++ key

def mainModel (argv : List String) (pathExists : Bool)
    (pages : List (List Char)) : MainResult :=
  if argv.length < 2 then
    { exitCode := 1, printed := [usageMessage], wroteFiles := false }
  else if !pathExists then
    { exitCode := 1,
      printed := [fileNotFoundMessage ((argv.get? 1).getD "")],
      wroteFiles := false }
  else
    match extract_monthlies_by_year pages with
    | .error e =>
      { exitCode := 1, printed := [tracebackMessage e], wroteFiles := false }
    | .ok monthly_df =>
      match extract_totals_by_year pages with
      | .error e =>
        { exitCode := 1, printed := [tracebackMessage e], wroteFiles := false }
      | .ok yearly_df =>
        let p1 := if !yearly_df.isEmpty then [yearTableHeader]
                  else [noYearTotalsMessage]
        let p2 := if !monthly_df.isEmpty then [monthTableHeader]
                  else [noMonthlyTotalsMessage]
        { exitCode := 0, printed := p1 ++ p2, wroteFiles := true }

/-! ### Verification-level definitions

Executable predicates used to state properties of whole runs. -/

/-- Along the actual run of the page loop from state `st`, every page
that touches the bucket of year `y` (changes its value) infers an end
month of at most `N`.  Pages of other years, or pages that leave the
bucket of `y` alone, are unconstrained — this scopes the bound to the
pages of the one year `y`, as the claim does. -/
def yearPagesEndLE (y N : Nat) : ExtractState → List (List Char) → Bool
  | _, [] => true
  | st, t :: ts =>
    (decide (bucketOf (processPage st t).monthly y = bucketOf st.monthly y)
      || decide (infer_end_month_for_page t st.current_end_month ≤ N)) &&
    yearPagesEndLE y N (processPage st t) ts

/-- The bucket of year `y` is zero at month positions `≥ N`
(0-based, i.e. calendar months `> N`). -/
def BucketZeroFrom (y N : Nat) (m : List (Nat × List Nat)) : Prop :=
  ∀ vals, bucketOf m y = some vals → ∀ i, N ≤ i → vals.getD i 0 = 0

/-- Every bucket of the accumulator has exactly 12 entries. -/
def BucketsLen12 (m : List (Nat × List Nat)) : Prop :=
  ∀ y vals, bucketOf m y = some vals → vals.length = 12

/-- Strict row order on the monthly dataframe: ascending by (year, month). -/
def monthRowLt (a b : MonthRow) : Prop :=
  a.year < b.year ∨ (a.year = b.year ∧ a.month < b.month)

/-- Well-formedness of the accumulator: every bucket has 12 entries and the
year keys are pairwise distinct (Python dict keys). -/
def GoodMonthly (m : List (Nat × List Nat)) : Prop :=
  BucketsLen12 m ∧ (m.map Prod.fst).Nodup

/-! ## Helper lemmas -/

theorem addVals_length (k : Nat) :
    ∀ (base vals : List Nat), (addVals base vals k).length = base.length := by
  induction k with
  | zero => intro base vals; simp [addVals]
  | succ k ih =>
    intro base vals
    cases base with
    | nil => cases vals <;> simp [addVals]
    | cons b bs =>
      cases vals with
      | nil => simp [addVals]
      | cons v vs => simpa [addVals] using ih bs vs

theorem addVals_getD_ge (k : Nat) :
    ∀ (base vals : List Nat) (i : Nat), k ≤ i →
      (addVals base vals k).getD i 0 = base.getD i 0 := by
  induction k with
  | zero => intro base vals i _; simp [addVals]
  | succ k ih =>
    intro base vals i hki
    cases base with
    | nil => cases vals <;> simp [addVals]
    | cons b bs =>
      cases vals with
      | nil => simp [addVals]
      | cons v vs =>
        cases i with
        | zero => omega
        | succ j => simpa [addVals] using ih bs vs j (by omega)

theorem addVals_getD_lt (k : Nat) :
    ∀ (base vals : List Nat) (i : Nat), i < k → i < base.length →
      i < vals.length →
      (addVals base vals k).getD i 0 = base.getD i 0 + vals.getD i 0 := by
  induction k with
  | zero => intro base vals i h _ _; omega
  | succ k ih =>
    intro base vals i hik hib hiv
    cases base with
    | nil => simp at hib
    | cons b bs =>
      cases vals with
      | nil => simp at hiv
      | cons v vs =>
        cases i with
        | zero => simp [addVals]
        | succ j =>
          simpa [addVals] using ih bs vs j (by omega) (by simpa using hib)
            (by simpa using hiv)

theorem lookup_map_update (cy : Nat) (vals : List Nat) (k : Nat) :
    ∀ (m : List (Nat × List Nat)),
      List.lookup cy
          (m.map fun p => if p.1 = cy then (p.1, addVals p.2 vals k) else p)
        = (List.lookup cy m).map (fun b => addVals b vals k) := by
  intro m
  induction m with
  | nil => rfl
  | cons p rest ih =>
    obtain ⟨a, b⟩ := p
    by_cases hac : a = cy
    · subst hac
      simp [List.lookup_cons]
    · have hba : (cy == a) = false := by simp [Ne.symm hac]
      simp [List.lookup_cons, hac, hba, ih]

theorem lookup_map_update_ne (y cy : Nat) (h : y ≠ cy)
    (vals : List Nat) (k : Nat) :
    ∀ (m : List (Nat × List Nat)),
      List.lookup y
          (m.map fun p => if p.1 = cy then (p.1, addVals p.2 vals k) else p)
        = List.lookup y m := by
  intro m
  induction m with
  | nil => rfl
  | cons p rest ih =>
    obtain ⟨a, b⟩ := p
    by_cases hac : a = cy
    · subst hac
      have hya : (y == a) = false := by simp [h]
      simp [List.lookup_cons, hya, ih]
    · by_cases hay : y = a
      · subst hay
        simp [List.lookup_cons, hac]
      · have hya : (y == a) = false := by simp [hay]
        simp [List.lookup_cons, hac, hya, ih]

theorem lookup_append_single_self (cy : Nat) (v : List Nat) :
    ∀ (m : List (Nat × List Nat)), List.lookup cy m = none →
      List.lookup cy (m ++ [(cy, v)]) = some v := by
  intro m
  induction m with
  | nil => intro _; simp [List.lookup_cons]
  | cons p rest ih =>
    obtain ⟨a, b⟩ := p
    intro hnone
    by_cases hac : cy = a
    · subst hac
      simp [List.lookup_cons] at hnone
    · have hca : (cy == a) = false := by simp [hac]
      simp only [List.lookup_cons, hca] at hnone
      simp only [List.cons_append, List.lookup_cons, hca]
      exact ih hnone

theorem lookup_append_single_ne (y cy : Nat) (h : y ≠ cy) (v : List Nat) :
    ∀ (m : List (Nat × List Nat)),
      List.lookup y (m ++ [(cy, v)]) = List.lookup y m := by
  intro m
  induction m with
  | nil =>
    have hyc : (y == cy) = false := by simp [h]
    simp [List.lookup_cons, hyc]
  | cons p rest ih =>
    obtain ⟨a, b⟩ := p
    by_cases hay : y = a
    · subst hay
      simp [List.lookup_cons]
    · have hya : (y == a) = false := by simp [hay]
      simp only [List.cons_append, List.lookup_cons, hya, ih]

theorem bucketOf_dictUpdate_self (m : List (Nat × List Nat)) (cy : Nat)
    (vals : List Nat) (k : Nat) :
    bucketOf (dictUpdate m cy vals k) cy =
      some (addVals ((bucketOf m cy).getD (List.replicate 12 0)) vals k) := by
  unfold dictUpdate bucketOf
  cases hb : List.lookup cy m with
  | some b =>
    simp only [hb, Option.isSome_some, if_true]
    rw [lookup_map_update, hb]
    rfl
  | none =>
    simp only [hb, Option.isSome_none, Bool.false_eq_true, if_false]
    rw [lookup_map_update, lookup_append_single_self cy _ m hb]
    rfl

theorem bucketOf_dictUpdate_ne (m : List (Nat × List Nat)) (y cy : Nat)
    (h : y ≠ cy) (vals : List Nat) (k : Nat) :
    bucketOf (dictUpdate m cy vals k) y = bucketOf m y := by
  unfold dictUpdate bucketOf
  cases hb : (List.lookup cy m).isSome with
  | true =>
    simp only [hb, if_true]
    exact lookup_map_update_ne y cy h vals k m
  | false =>
    simp only [hb, Bool.false_eq_true, if_false]
    rw [lookup_map_update_ne y cy h, lookup_append_single_ne y cy h]

theorem processLine_end_month (st : ExtractState) (raw : List Char) :
    (processLine st raw).current_end_month = st.current_end_month := by
  simp only [processLine]
  cases hys : yearHeaderSearch (pstrip raw) with
  | some y => rfl
  | none =>
    cases st.current_year with
    | none => rfl
    | some cy =>
      by_cases hrow : is_state_row (pstrip raw)
      · simp only [hrow, Bool.not_true, Bool.false_eq_true, if_false]
        repeat' first | split | rfl
      · simp only [hrow, Bool.not_false, if_true]

theorem processLine_year_of_no_header (st : ExtractState) (raw : List Char)
    (h : yearHeaderSearch (pstrip raw) = none) :
    (processLine st raw).current_year = st.current_year := by
  simp only [processLine, h]
  cases hcy : st.current_year with
  | none => exact hcy
  | some cy =>
    by_cases hrow : is_state_row (pstrip raw) <;>
      simp only [hrow, Bool.not_true, Bool.not_false, Bool.false_eq_true,
        if_true, if_false] <;>
    repeat' first | split | exact hcy | rfl

/-- Either a line leaves the accumulator untouched, or it adds a list of
exactly `current_end_month` values into the bucket of the current year. -/
theorem processLine_monthly_cases (st : ExtractState) (raw : List Char) :
    (processLine st raw).monthly = st.monthly ∨
    ∃ cy vals, st.current_year = some cy ∧
      vals.length = st.current_end_month ∧
      (processLine st raw).monthly =
        dictUpdate st.monthly cy vals st.current_end_month := by
  simp only [processLine]
  cases hys : yearHeaderSearch (pstrip raw) with
  | some y => left; rfl
  | none =>
    cases hcy : st.current_year with
    | none => left; rfl
    | some cy =>
      by_cases hrow : is_state_row (pstrip raw)
      · simp only [hrow, Bool.not_true, Bool.false_eq_true, if_false]
        split
        · left; rfl
        · split
          · left; rfl
          · rename_i hlen hne
            right
            refine ⟨cy, _, rfl, ?_, rfl⟩
            omega
      · simp only [hrow, Bool.not_false, if_true]
        left; trivial

/-- C4: the row classifier `is_state_row` returns `false` for every line in
the ignore-exact set, every line starting with an ignore prefix or
containing an ignore substring, every line not starting with a letter, and
every line containing no digit; and a rejected line never changes the
accumulated totals. -/
theorem C4_is_state_row_rejections (line raw : List Char)
    (st : ExtractState)
    (h : pstrip line ∈ IGNORE_EXACT ∨
         (∃ p ∈ IGNORE_PREFIXES, pstartswith (pstrip line) p = true) ∨
         (∃ c ∈ IGNORE_CONTAINS, containsSub (pstrip line) c = true) ∨
         (match pstrip line with
          | c :: _ => isLetterChar c
          | [] => false) = false ∨
         (pstrip line).any isDigitChar = false) :
    is_state_row line = false ∧
    (is_state_row (pstrip raw) = false →
      (processLine st raw).monthly = st.monthly) := by
  constructor
  · simp only [is_state_row]
    split_ifs with h1 h2 h3 h4 h5 h6 <;> try rfl
    exfalso
    rcases h with h | h | h | h | h
    · exact h1 (List.elem_eq_true_of_mem h)
    · exact h2 (List.any_eq_true.mpr h)
    · exact h3 (List.any_eq_true.mpr h)
    · rw [h] at h4
      exact h4 rfl
    · rw [h] at h6
      exact h6 rfl
  · intro hrej
    simp only [processLine]
    cases hys : yearHeaderSearch (pstrip raw) with
    | some y => rfl
    | none =>
      cases hcy : st.current_year with
      | none => rfl
      | some cy => simp only [hrej, Bool.not_false, if_true]

/-- C3: on an accepted line processed with inferred end-month `N`
(`current_end_month`), the parser takes the integer tokens of the line
(commas stripped), treats the last token as the state grand total, adds the
`N` tokens immediately preceding it as the values of months `1..N`, and
discards the line entirely when it has fewer than `N + 1` tokens. -/
theorem C3_numeric_row_tokens (st : ExtractState) (raw : List Char) (cy : Nat)
    (hnohdr : yearHeaderSearch (pstrip raw) = none)
    (hyear : st.current_year = some cy)
    (hrow : is_state_row (pstrip raw) = true) :
    ((numbersInLine (pstrip raw)).length < st.current_end_month + 1 →
      processLine st raw = st) ∧
    (∀ pre mv gt, numbersInLine (pstrip raw) = pre ++ mv ++ [gt] →
      mv.length = st.current_end_month →
      (processLine st raw).monthly =
        dictUpdate st.monthly cy mv st.current_end_month ∧
      bucketOf (processLine st raw).monthly cy =
        some (addVals ((bucketOf st.monthly cy).getD (List.replicate 12 0))
          mv st.current_end_month) ∧
      ∀ i, i < st.current_end_month →
        i < ((bucketOf st.monthly cy).getD (List.replicate 12 0)).length →
        (addVals ((bucketOf st.monthly cy).getD (List.replicate 12 0))
            mv st.current_end_month).getD i 0 =
          ((bucketOf st.monthly cy).getD (List.replicate 12 0)).getD i 0 +
            mv.getD i 0) := by
  constructor
  · intro hlt
    simp only [processLine, hnohdr, hyear, hrow, Bool.not_true,
      Bool.false_eq_true, if_false]
    rw [if_pos hlt]
  · intro pre mv gt heq hlen
    have hnums_len : (numbersInLine (pstrip raw)).length
        = pre.length + mv.length + 1 := by
      rw [heq]; simp [List.length_append]; omega
    have hnotlt :
        ¬ (numbersInLine (pstrip raw)).length < st.current_end_month + 1 := by
      omega
    have hassoc : pre ++ mv ++ [gt] = pre ++ (mv ++ [gt]) :=
      List.append_assoc pre mv [gt]
    have hsub : (numbersInLine (pstrip raw)).length
        - (st.current_end_month + 1) = pre.length := by omega
    have hmv : ((numbersInLine (pstrip raw)).drop
        ((numbersInLine (pstrip raw)).length
          - (st.current_end_month + 1))).dropLast = mv := by
      rw [hsub, heq, hassoc, List.drop_left, List.dropLast_concat]
    have hstate : processLine st raw =
        { st with monthly := dictUpdate st.monthly cy mv st.current_end_month } := by
      simp only [processLine, hnohdr, hyear, hrow, Bool.not_true,
        Bool.false_eq_true, if_false]
      rw [if_neg hnotlt, hmv,
        if_neg (by omega : ¬ mv.length ≠ st.current_end_month)]
    refine ⟨by rw [hstate], ?_, ?_⟩
    · rw [hstate]
      exact bucketOf_dictUpdate_self st.monthly cy mv st.current_end_month
    · intro i hiN hibase
      exact addVals_getD_lt st.current_end_month _ mv i hiN hibase (by omega)

theorem C4_is_state_row_rejections_witness :
    is_state_row "Page 2".data = false ∧
    (processLine ⟨[], none, 12⟩ "Page 2".data).monthly = [] :=
  ⟨(C4_is_state_row_rejections "Page 2".data "Page 2".data ⟨[], none, 12⟩
      (Or.inr (Or.inl ⟨"Page".data, by decide, by decide⟩))).1,
   (C4_is_state_row_rejections "Page 2".data "Page 2".data ⟨[], none, 12⟩
      (Or.inr (Or.inl ⟨"Page".data, by decide, by decide⟩))).2 (by decide)⟩

theorem C3_numeric_row_tokens_witness :
    (processLine ⟨[], some 2020, 2⟩ "Alabama 1,234 20 30".data).monthly =
      dictUpdate [] 2020 [1234, 20] 2 ∧
    processLine ⟨[], some 2020, 3⟩ "Alabama 1,234 20 30".data =
      ⟨[], some 2020, 3⟩ :=
  ⟨((C3_numeric_row_tokens ⟨[], some 2020, 2⟩ "Alabama 1,234 20 30".data 2020
      (by decide) rfl (by decide)).2 [] [1234, 20] 30 (by decide) rfl).1,
   (C3_numeric_row_tokens ⟨[], some 2020, 3⟩ "Alabama 1,234 20 30".data 2020
      (by decide) rfl (by decide)).1 (by decide)⟩

/-! ## Year and end-month inference claims -/

theorem foldl_max_le (xs : List Nat) :
    ∀ x, x ≤ xs.foldl max x ∧ ∀ z ∈ xs, z ≤ xs.foldl max x := by
  induction xs with
  | nil => intro x; simp
  | cons y ys ih =>
    intro x
    have h := ih (max x y)
    refine ⟨le_trans (le_max_left x y) h.1, ?_⟩
    intro z hz
    rcases List.mem_cons.mp hz with rfl | hz
    · exact le_trans (le_max_right x _) h.1
    · exact h.2 z hz

theorem foldl_max_mem (xs : List Nat) :
    ∀ x, xs.foldl max x = x ∨ xs.foldl max x ∈ xs := by
  induction xs with
  | nil => intro x; left; rfl
  | cons y ys ih =>
    intro x
    rcases ih (max x y) with h | h
    · rcases max_choice x y with hm | hm
      · left
        simp only [List.foldl_cons]
        rw [h, hm]
      · right
        simp only [List.foldl_cons]
        rw [h, hm]
        exact List.mem_cons_self y ys
    · right
      simp only [List.foldl_cons]
      exact List.mem_cons_of_mem y h

theorem pymax_spec (l : List Nat) (m : Nat) (h : pymax l = some m) :
    m ∈ l ∧ ∀ z ∈ l, z ≤ m := by
  cases l with
  | nil => simp [pymax] at h
  | cons x xs =>
    simp only [pymax, Option.some.injEq] at h
    subst h
    constructor
    · rcases foldl_max_mem xs x with h | h
      · simp [h]
      · simp [h]
    · intro z hz
      rcases List.mem_cons.mp hz with rfl | hz
      · exact (foldl_max_le xs _).1
      · exact (foldl_max_le xs _).2 z hz

/-- C5: the year inferrer prefers an explicit `Year NNNN` marker (the last
one on the page), else the maximum plausible 4-digit year (a `(19|20)dd`
token valued at least 1998) appearing anywhere on the page, else the year
carried over from prior pages. -/
theorem C5_year_inference (text : List Char) (current_year : Option Nat) :
    (∀ y, (yearHeaderFindall text).getLast? = some y →
      infer_year_for_page text current_year = some y ∧
      y ∈ yearHeaderFindall text) ∧
    (yearHeaderFindall text = [] →
      ∀ m, pymax ((anyYearFindall text).filter (fun y => 1998 ≤ y)) = some m →
        infer_year_for_page text current_year = some m ∧
        m ∈ anyYearFindall text ∧ 1998 ≤ m ∧
        ∀ z ∈ anyYearFindall text, 1998 ≤ z → z ≤ m) ∧
    (yearHeaderFindall text = [] →
      pymax ((anyYearFindall text).filter (fun y => 1998 ≤ y)) = none →
      infer_year_for_page text current_year = current_year) := by
  refine ⟨?_, ?_, ?_⟩
  · intro y h
    constructor
    · simp only [infer_year_for_page, h]
    · obtain ⟨ys, hys⟩ := List.getLast?_eq_some_iff.mp h
      rw [hys]; simp
  · intro h0 m hm
    have hspec := pymax_spec _ m hm
    have hmem := List.mem_filter.mp hspec.1
    refine ⟨?_, hmem.1, by simpa using hmem.2, ?_⟩
    · simp only [infer_year_for_page, h0, List.getLast?_nil, hm]
    · intro z hz hz98
      exact hspec.2 z (List.mem_filter.mpr ⟨hz, by simpa using hz98⟩)
  · intro h0 hm
    simp only [infer_year_for_page, h0, List.getLast?_nil, hm]

theorem C5_year_inference_witness :
    infer_year_for_page "foo Year 2003 bar Year 2011".data (some 7) = some 2011 ∧
    infer_year_for_page "in 2005 and 2001".data (some 7) = some 2005 ∧
    infer_year_for_page "январь".data (some 7) = some 7 :=
  ⟨((C5_year_inference "foo Year 2003 bar Year 2011".data (some 7)).1 2011
      (by decide)).1,
   ((C5_year_inference "in 2005 and 2001".data (some 7)).2.1 (by decide) 2005
      (by decide)).1,
   (C5_year_inference "январь".data (some 7)).2.2 (by decide) (by decide)⟩

theorem tryMonthsCI_mem :
    ∀ (ms : List (List Char)) (cs m r), tryMonthsCI ms cs = some (m, r) →
      m ∈ ms := by
  intro ms
  induction ms with
  | nil => intro cs m r h; simp [tryMonthsCI] at h
  | cons x xs ih =>
    intro cs m r h
    simp only [tryMonthsCI] at h
    cases hx : matchCI x cs with
    | some rest =>
      rw [hx] at h
      simp only [Option.some.injEq, Prod.mk.injEq] at h
      simp [h.1]
    | none =>
      rw [hx] at h
      exact List.mem_cons_of_mem x (ih cs m r h)

theorem matchHeaderRangeAt_mem (cs m2 : List Char)
    (h : matchHeaderRangeAt cs = some m2) : m2 ∈ MONTHS_FULL := by
  simp only [matchHeaderRangeAt, bind, Option.bind_eq_some] at h
  obtain ⟨⟨m1, r1⟩, h1, h⟩ := h
  obtain ⟨r2, h2, h⟩ := h
  obtain ⟨r3, h3, h⟩ := h
  obtain ⟨r4, h4, h⟩ := h
  obtain ⟨r5, h5, h⟩ := h
  obtain ⟨r6, h6, h⟩ := h
  obtain ⟨⟨m2', r7⟩, h7, h⟩ := h
  obtain ⟨r8, h8, h⟩ := h
  obtain ⟨r9, h9, h⟩ := h
  obtain ⟨r10, h10, h⟩ := h
  obtain ⟨r11, h11, h⟩ := h
  simp only [Option.pure_def, Option.some.injEq] at h
  subst h
  exact tryMonthsCI_mem MONTHS_FULL r6 _ r7 h7

theorem headerRangeSearch_mem (text name : List Char)
    (h : headerRangeSearch text = some name) : name ∈ MONTHS_FULL := by
  unfold headerRangeSearch at h
  generalize hfuel : text.length = fuel at h
  clear hfuel
  induction fuel generalizing text with
  | zero => simp [headerRangeSearchF] at h
  | succ fuel ih =>
    cases text with
    | nil => simp [headerRangeSearchF] at h
    | cons c cs =>
      simp only [headerRangeSearchF] at h
      cases hm : matchHeaderRangeAt (c :: cs) with
      | some m2 =>
        rw [hm] at h
        simp only [Option.some.injEq] at h
        subst h
        exact matchHeaderRangeAt_mem _ _ hm
      | none =>
        rw [hm] at h
        exact ih cs h

theorem month_idx_of_mem (name : List Char) (h : name ∈ MONTHS_FULL) :
    ∃ i, MONTH_TO_IDX name = some i ∧ 1 ≤ i ∧ i ≤ 12 := by
  simp only [MONTHS_FULL, List.map_cons, List.map_nil, List.mem_cons,
    List.not_mem_nil, or_false] at h
  rcases h with h | h | h | h | h | h | h | h | h | h | h | h <;>
    subst h <;> exact ⟨_, rfl, by omega, by omega⟩

theorem foldl_lastIdx_none (text : List Char) :
    ∀ (L : List (Nat × List Char)) (acc : Nat),
      (∀ p ∈ L, containsSub text p.2 = false) →
      L.foldl (fun acc p => if containsSub text p.2 then p.1 else acc) acc
        = acc := by
  intro L
  induction L with
  | nil => intro acc _; rfl
  | cons q L ih =>
    intro acc hnone
    have hq := hnone q (by simp)
    simp only [List.foldl_cons, hq, Bool.false_eq_true, if_false]
    exact ih acc (fun p hp => hnone p (List.mem_cons_of_mem q hp))

theorem foldl_lastIdx_pick (text : List Char) :
    ∀ (L : List (Nat × List Char)) (acc : Nat) (p : Nat × List Char),
      p ∈ L → containsSub text p.2 = true →
      (∀ q ∈ L, p.1 < q.1 → containsSub text q.2 = false) →
      List.Pairwise (fun a b => a.1 < b.1) L →
      L.foldl (fun acc q => if containsSub text q.2 then q.1 else acc) acc
        = p.1 := by
  intro L
  induction L with
  | nil => intro acc p hp; simp at hp
  | cons q L ih =>
    intro acc p hp hcont hlater hpw
    have hpw' := List.pairwise_cons.mp hpw
    rcases List.mem_cons.mp hp with rfl | hp'
    · simp only [List.foldl_cons, hcont, if_true]
      exact foldl_lastIdx_none text L p.1
        (fun r hr => hlater r (List.mem_cons_of_mem p hr) (hpw'.1 r hr))
    · simp only [List.foldl_cons]
      exact ih _ p hp' hcont
        (fun r hr => hlater r (List.mem_cons_of_mem q hr)) hpw'.2

theorem pairwise_fst_lt_enumFrom {α : Type} :
    ∀ (l : List α) (n : Nat),
      List.Pairwise (fun a b : Nat × α => a.1 < b.1) (List.enumFrom n l) := by
  intro l
  induction l with
  | nil => intro n; simp [List.enumFrom]
  | cons x xs ih =>
    intro n
    simp only [List.enumFrom]
    refine List.Pairwise.cons ?_ (ih (n + 1))
    intro p hp
    have := List.mem_enumFrom (x := p.2) (i := p.1) (by simpa using hp)
    omega

/-- C6: the end-month inferrer returns the month index of the second month
name of a date-range header when one is present (a value in 1..12), and
otherwise the index of the latest full month name appearing anywhere in the
page text, falling back to the given default when no month name appears. -/
theorem C6_end_month_inference (text : List Char) (dflt : Nat) :
    (∀ name, headerRangeSearch text = some name →
      infer_end_month_for_page text dflt = (MONTH_TO_IDX name).getD dflt ∧
      ∃ i, MONTH_TO_IDX name = some i ∧ 1 ≤ i ∧ i ≤ 12 ∧
        infer_end_month_for_page text dflt = i) ∧
    (headerRangeSearch text = none →
      ((∀ p ∈ List.enumFrom 1 MONTHS_FULL, containsSub text p.2 = false) →
        infer_end_month_for_page text dflt = dflt) ∧
      (∀ p ∈ List.enumFrom 1 MONTHS_FULL, containsSub text p.2 = true →
        (∀ q ∈ List.enumFrom 1 MONTHS_FULL, p.1 < q.1 →
          containsSub text q.2 = false) →
        infer_end_month_for_page text dflt = p.1)) := by
  constructor
  · intro name h
    obtain ⟨i, hi, h1, h12⟩ := month_idx_of_mem name (headerRangeSearch_mem text name h)
    refine ⟨by simp only [infer_end_month_for_page, h], i, hi, h1, h12, ?_⟩
    simp only [infer_end_month_for_page, h, hi, Option.getD_some]
  · intro h
    constructor
    · intro hnone
      simp only [infer_end_month_for_page, h, lastMonthLoop]
      exact foldl_lastIdx_none text _ dflt hnone
    · intro p hp hcont hlater
      simp only [infer_end_month_for_page, h, lastMonthLoop]
      exact foldl_lastIdx_pick text _ dflt p hp hcont hlater
        (pairwise_fst_lt_enumFrom MONTHS_FULL 1)

theorem C6_end_month_inference_witness :
    infer_end_month_for_page "January 1, 2025 - September 30, 2025".data 12 = 9 ∧
    infer_end_month_for_page "keine Monate".data 7 = 7 ∧
    infer_end_month_for_page "March and January".data 12 = 3 :=
  ⟨by
    obtain ⟨i, hi, _, _, hres⟩ :=
      ((C6_end_month_inference "January 1, 2025 - September 30, 2025".data 12).1
        "September".data (by decide)).2
    rw [hres]
    have : i = 9 := by
      have : MONTH_TO_IDX "September".data = some 9 := by decide
      rw [this] at hi
      exact (Option.some.injEq _ _ ▸ hi.symm)
    omega,
   ((C6_end_month_inference "keine Monate".data 7).2 (by decide)).1 (by decide),
   ((C6_end_month_inference "March and January".data 12).2 (by decide)).2
      (3, "March".data) (by decide) (by decide) (by decide)⟩

/-! ## Unknown-year claims -/

theorem processLine_skip_of_no_year (st : ExtractState) (raw : List Char)
    (hyr : st.current_year = none)
    (hnh : yearHeaderSearch (pstrip raw) = none) :
    processLine st raw = st := by
  simp only [processLine, hnh, hyr]

theorem foldl_processLine_skip :
    ∀ (lines : List (List Char)) (st : ExtractState),
      st.current_year = none →
      (∀ l ∈ lines, yearHeaderSearch (pstrip l) = none) →
      lines.foldl processLine st = st := by
  intro lines
  induction lines with
  | nil => intro st _ _; rfl
  | cons l ls ih =>
    intro st hyr hnh
    rw [List.foldl_cons,
      processLine_skip_of_no_year st l hyr (hnh l (by simp))]
    exact ih st hyr (fun x hx => hnh x (List.mem_cons_of_mem l hx))

theorem runPages_of_no_year :
    ∀ (pages : List (List Char)) (st : ExtractState),
      st.monthly = [] → st.current_year = none →
      (∀ t ∈ pages, yearHeaderFindall t = [] ∧
        (anyYearFindall t).filter (fun y => 1998 ≤ y) = []) →
      (∀ t ∈ pages, ∀ l ∈ splitlines t, yearHeaderSearch (pstrip l) = none) →
      (pages.foldl processPage st).monthly = [] ∧
      (pages.foldl processPage st).current_year = none := by
  intro pages
  induction pages with
  | nil => intro st hm hy _ _; exact ⟨hm, hy⟩
  | cons t ts ih =>
    intro st hm hy hpage hline
    rw [List.foldl_cons]
    have ht := hpage t (by simp)
    have hinfer : infer_year_for_page t st.current_year = none := by
      simp only [infer_year_for_page, ht.1, List.getLast?_nil, ht.2, pymax, hy]
    have hstep : processPage st t =
        { st with current_year := none,
                  current_end_month :=
                    infer_end_month_for_page t st.current_end_month } := by
      unfold processPage
      rw [hinfer]
      exact foldl_processLine_skip (splitlines t) _ rfl (hline t (by simp))
    rw [hstep]
    exact ih _ hm rfl (fun x hx => hpage x (List.mem_cons_of_mem t hx))
      (fun x hx => hline x (List.mem_cons_of_mem t hx))

/-- C9 counterexample: on a PDF from which no year can be inferred the
claim predicts empty monthly and yearly outputs rather than an error, but
the accumulator stays empty and both extraction functions raise the
uncaught `KeyError` on the `year` sort key of the column-less empty
dataframe, so `main` aborts with exit status 1 — an error, not empty
outputs. -/
theorem C9_unknown_year_error_counterexample :
    (runPages ["Alabama 1 2 3\nWyoming 4 5 6".data]).monthly = [] ∧
    extract_monthlies_by_year ["Alabama 1 2 3\nWyoming 4 5 6".data]
      = .error "year" ∧
    extract_totals_by_year ["Alabama 1 2 3\nWyoming 4 5 6".data]
      = .error "year" ∧
    (mainModel ["nics_total_by_year.py", "checks.pdf"] true
      ["Alabama 1 2 3\nWyoming 4 5 6".data]).exitCode = 1 :=
  ⟨rfl, rfl, rfl, rfl⟩

/-- C9 (amended): a line encountered while the running year is unknown and
carrying no inline `Year NNNN` header is skipped wholesale, state-row or
not; a PDF on which no page ever yields a year marker or plausible year
therefore accumulates nothing — and flattening the empty accumulator then
raises the uncaught `KeyError` on the missing `year` column in both
extraction functions, instead of producing empty outputs. -/
theorem C9_unknown_year_lines_skipped (st : ExtractState) (raw : List Char)
    (pages : List (List Char))
    (hyr : st.current_year = none)
    (hnh : yearHeaderSearch (pstrip raw) = none) :
    processLine st raw = st ∧
    ((∀ t ∈ pages, yearHeaderFindall t = [] ∧
        (anyYearFindall t).filter (fun y => 1998 ≤ y) = []) →
      (∀ t ∈ pages, ∀ l ∈ splitlines t, yearHeaderSearch (pstrip l) = none) →
      (runPages pages).monthly = [] ∧
      extract_monthlies_by_year pages = .error "year" ∧
      extract_totals_by_year pages = .error "year") := by
  refine ⟨processLine_skip_of_no_year st raw hyr hnh, ?_⟩
  intro hpage hline
  have hrun := runPages_of_no_year pages ⟨[], none, 12⟩ rfl rfl hpage hline
  have hm : extract_monthlies_by_year pages = .error "year" := by
    unfold extract_monthlies_by_year dataFrameSortValues runPages
    rw [hrun.1]
    rfl
  refine ⟨hrun.1, hm, ?_⟩
  unfold extract_totals_by_year
  rw [hm]

theorem C9_unknown_year_lines_skipped_witness :
    processLine ⟨[], none, 12⟩ "Alabama 1 2 3".data = ⟨[], none, 12⟩ ∧
    extract_monthlies_by_year ["Alabama 1 2 3\nWyoming 4 5 6".data]
      = .error "year" :=
  ⟨(C9_unknown_year_lines_skipped ⟨[], none, 12⟩ "Alabama 1 2 3".data
      ["Alabama 1 2 3\nWyoming 4 5 6".data] rfl (by decide)).1,
   ((C9_unknown_year_lines_skipped ⟨[], none, 12⟩ "Alabama 1 2 3".data
      ["Alabama 1 2 3\nWyoming 4 5 6".data] rfl (by decide)).2
      (by decide) (by decide)).2.1⟩

/-! ## Zero-fill invariant (C7) -/

theorem replicate12_getD_zero (i : Nat) :
    (List.replicate 12 (0 : Nat)).getD i 0 = 0 := by
  rcases Nat.lt_or_ge i 12 with h | h
  · rw [List.getD_eq_getElem _ _ (by simpa using h)]
    exact List.getElem_replicate 0 _
  · rw [List.getD_eq_getElem?_getD, List.getElem?_eq_none (by simpa using h)]
    rfl

theorem BucketZeroFrom_dictUpdate (y N : Nat) (m : List (Nat × List Nat))
    (cy : Nat) (vals : List Nat) (k : Nat) (hk : k ≤ N)
    (h : BucketZeroFrom y N m) :
    BucketZeroFrom y N (dictUpdate m cy vals k) := by
  intro v hv i hNi
  by_cases hy : y = cy
  · subst hy
    rw [bucketOf_dictUpdate_self] at hv
    injection hv with hv
    subst hv
    rw [addVals_getD_ge k _ vals i (by omega)]
    cases hb : bucketOf m y with
    | some b =>
      simp only [hb, Option.getD_some]
      exact h b hb i hNi
    | none =>
      simp only [hb, Option.getD_none]
      exact replicate12_getD_zero i
  · rw [bucketOf_dictUpdate_ne m y cy hy] at hv
    exact h v hv i hNi

theorem BucketZeroFrom_processLine (y N : Nat) (st : ExtractState)
    (raw : List Char) (hle : st.current_end_month ≤ N)
    (h : BucketZeroFrom y N st.monthly) :
    BucketZeroFrom y N (processLine st raw).monthly := by
  rcases processLine_monthly_cases st raw with hsame | ⟨cy, vals, _, _, hupd⟩
  · rw [hsame]; exact h
  · rw [hupd]
    exact BucketZeroFrom_dictUpdate y N st.monthly cy vals
      st.current_end_month hle h

theorem foldl_processLine_invariants :
    ∀ (lines : List (List Char)) (st : ExtractState),
      (lines.foldl processLine st).current_end_month
        = st.current_end_month ∧
      (∀ y N, st.current_end_month ≤ N → BucketZeroFrom y N st.monthly →
        BucketZeroFrom y N (lines.foldl processLine st).monthly) := by
  intro lines
  induction lines with
  | nil => intro st; exact ⟨rfl, fun _ _ _ h => h⟩
  | cons l ls ih =>
    intro st
    rw [List.foldl_cons]
    have hem := processLine_end_month st l
    refine ⟨by rw [(ih (processLine st l)).1, hem], ?_⟩
    intro y N hle h
    exact (ih (processLine st l)).2 y N (by rw [hem]; exact hle)
      (BucketZeroFrom_processLine y N st l hle h)

theorem processPage_end_month (st : ExtractState) (t : List Char) :
    (processPage st t).current_end_month
      = infer_end_month_for_page t st.current_end_month := by
  unfold processPage
  exact (foldl_processLine_invariants (splitlines t) _).1

theorem foldl_processPage_BucketZeroFrom (y N : Nat) :
    ∀ (pages : List (List Char)) (st : ExtractState),
      yearPagesEndLE y N st pages = true →
      BucketZeroFrom y N st.monthly →
      BucketZeroFrom y N (pages.foldl processPage st).monthly := by
  intro pages
  induction pages with
  | nil => intro st _ h; exact h
  | cons t ts ih =>
    intro st hall h
    simp only [yearPagesEndLE, Bool.and_eq_true, Bool.or_eq_true,
      decide_eq_true_eq] at hall
    rw [List.foldl_cons]
    have hstep : BucketZeroFrom y N (processPage st t).monthly := by
      rcases hall.1 with hkeep | hle
      · intro v hv i hNi
        rw [hkeep] at hv
        exact h v hv i hNi
      · unfold processPage
        exact (foldl_processLine_invariants (splitlines t) _).2 y N hle h
    exact ih (processPage st t) hall.2 hstep

theorem mem_map_fst_lookup :
    ∀ (m : List (Nat × List Nat)) (y : Nat),
      y ∈ m.map Prod.fst → ∃ v, List.lookup y m = some v := by
  intro m
  induction m with
  | nil => intro y hy; simp at hy
  | cons p rest ih =>
    obtain ⟨a, b⟩ := p
    intro y hy
    by_cases hya : y = a
    · subst hya
      exact ⟨b, by simp [List.lookup_cons]⟩
    · have hya' : (y == a) = false := by simp [hya]
      simp only [List.map_cons, List.mem_cons] at hy
      rcases hy with hy | hy
      · exact absurd hy hya
      · obtain ⟨v, hv⟩ := ih y hy
        exact ⟨v, by simp [List.lookup_cons, hya', hv]⟩

theorem mem_monthRowsOf (m : List (Nat × List Nat)) (r : MonthRow)
    (hr : r ∈ monthRowsOf m) :
    ∃ y vals i v, List.lookup y m = some vals ∧
      (i, v) ∈ List.enumFrom 1 vals ∧
      r = ⟨y, i, (MONTHS_ABBR.get? (i - 1)).getD [], v⟩ := by
  unfold monthRowsOf at hr
  obtain ⟨y, hy, hry⟩ := List.mem_flatMap.mp hr
  have hy' : y ∈ m.map Prod.fst :=
    (List.perm_insertionSort (· ≤ ·) (m.map Prod.fst)).mem_iff.mp hy
  obtain ⟨vals, hvals⟩ := mem_map_fst_lookup m y hy'
  obtain ⟨p, hp, hpr⟩ := List.mem_map.mp hry
  refine ⟨y, vals, p.1, p.2, hvals, ?_, by rw [← hpr]⟩
  simpa [bucketOf, hvals] using hp

theorem monthlies_ok_elim (pages : List (List Char)) (df : List MonthRow)
    (h : extract_monthlies_by_year pages = .ok df) :
    df = List.insertionSort monthRowLe (monthRowsOf (runPages pages).monthly)
      ∧ monthRowsOf (runPages pages).monthly ≠ [] := by
  unfold extract_monthlies_by_year dataFrameSortValues at h
  split at h
  · cases h
  · rename_i hne
    injection h with h
    exact ⟨h.symm, by simpa [List.isEmpty_iff] using hne⟩

theorem monthlies_error_of_nil (pages : List (List Char))
    (h : monthRowsOf (runPages pages).monthly = []) :
    extract_monthlies_by_year pages = .error "year" := by
  unfold extract_monthlies_by_year dataFrameSortValues
  rw [h]
  rfl

theorem monthlies_ok_of_ne_nil (pages : List (List Char))
    (h : monthRowsOf (runPages pages).monthly ≠ []) :
    extract_monthlies_by_year pages =
      .ok (List.insertionSort monthRowLe
        (monthRowsOf (runPages pages).monthly)) := by
  unfold extract_monthlies_by_year dataFrameSortValues
  rw [if_neg (by simpa [List.isEmpty_iff] using h)]

/-- C7: for a year `y` whose contributing pages (the pages that touch the
bucket of `y` along the run) all infer an end month of at most `N`, the
accumulated bucket of `y` is zero at all month positions beyond `N` —
pages of other years may report all 12 months — and consequently every row
of the monthly output for year `y` whose calendar month exceeds `N`
reports a zero total (zero-filled, never written by any state row). -/
theorem C7_partial_year_zero_fill (pages : List (List Char)) (y N : Nat)
    (hall : yearPagesEndLE y N ⟨[], none, 12⟩ pages = true) :
    (∀ vals, bucketOf (runPages pages).monthly y = some vals →
      ∀ i, N ≤ i → vals.getD i 0 = 0) ∧
    (∀ df, extract_monthlies_by_year pages = .ok df →
      ∀ r, r ∈ df → r.year = y → N < r.month →
        r.total_background_checks = 0) := by
  have hzero : BucketZeroFrom y N (runPages pages).monthly := by
    unfold runPages
    exact foldl_processPage_BucketZeroFrom y N pages ⟨[], none, 12⟩ hall
      (by intro vals hv; simp [bucketOf] at hv)
  refine ⟨hzero, ?_⟩
  intro df hdf r hr hry hNr
  obtain ⟨hdf_eq, _⟩ := monthlies_ok_elim pages df hdf
  have hr' : r ∈ monthRowsOf (runPages pages).monthly := by
    rw [hdf_eq] at hr
    exact (List.perm_insertionSort monthRowLe _).mem_iff.mp hr
  obtain ⟨y', vals, i, v, hvals, henum, hreq⟩ :=
    mem_monthRowsOf (runPages pages).monthly r hr'
  have hbounds := List.mem_enumFrom henum
  have hyy : y' = y := by
    rw [hreq] at hry
    exact hry
  subst hyy
  have hmonth : r.month = i := by rw [hreq]
  have htot : r.total_background_checks = v := by rw [hreq]
  have hv : vals.getD (i - 1) 0 = v := by
    have hlt : i - 1 < vals.length := by omega
    rw [List.getD_eq_getElem vals 0 hlt]
    exact (hbounds.2.2).symm
  rw [htot, ← hv]
  exact hzero vals hvals (i - 1) (by omega)

theorem C7_partial_year_zero_fill_witness :
    yearPagesEndLE 2020 2 ⟨[], none, 12⟩
      ["Year 2019\nAlabama 1 2 3 4 5 6 7 8 9 10 11 12 78".data,
       "January 1, 2020 - February 29, 2020\nYear 2020\nAlabama 10 20 30".data]
      = true ∧
    ∀ df, extract_monthlies_by_year
        ["Year 2019\nAlabama 1 2 3 4 5 6 7 8 9 10 11 12 78".data,
         "January 1, 2020 - February 29, 2020\nYear 2020\nAlabama 10 20 30".data]
        = .ok df →
      ∀ r, r ∈ df → r.year = 2020 → 2 < r.month →
        r.total_background_checks = 0 :=
  ⟨by decide,
   (C7_partial_year_zero_fill
      ["Year 2019\nAlabama 1 2 3 4 5 6 7 8 9 10 11 12 78".data,
       "January 1, 2020 - February 29, 2020\nYear 2020\nAlabama 10 20 30".data]
      2020 2 (by decide)).2⟩

/-! ## Dataframe shape and roundtrip (C10, C2) -/

theorem dictUpdate_keys (m : List (Nat × List Nat)) (cy : Nat)
    (vals : List Nat) (k : Nat) :
    (dictUpdate m cy vals k).map Prod.fst =
      if (bucketOf m cy).isSome then m.map Prod.fst
      else m.map Prod.fst ++ [cy] := by
  unfold dictUpdate
  cases hb : (bucketOf m cy).isSome with
  | true =>
    simp only [hb, if_true, List.map_map]
    exact List.map_congr_left (fun p _ => by
      dsimp only [Function.comp]; split <;> rfl)
  | false =>
    simp only [hb, Bool.false_eq_true, if_false]
    rw [List.map_append, List.map_append, List.map_map, List.map_map]
    congr 1
    · exact List.map_congr_left (fun p _ => by
        dsimp only [Function.comp]; split <;> rfl)
    · simp

theorem lookup_none_not_mem (m : List (Nat × List Nat)) (cy : Nat)
    (h : List.lookup cy m = none) : cy ∉ m.map Prod.fst := by
  intro hmem
  obtain ⟨v, hv⟩ := mem_map_fst_lookup m cy hmem
  rw [h] at hv
  cases hv

theorem lookup_some_mem :
    ∀ (m : List (Nat × List Nat)) (y : Nat) (v : List Nat),
      List.lookup y m = some v → y ∈ m.map Prod.fst := by
  intro m
  induction m with
  | nil => intro y v hv; simp [List.lookup] at hv
  | cons p rest ih =>
    obtain ⟨a, b⟩ := p
    intro y v hv
    by_cases hya : y = a
    · subst hya; simp
    · have hya' : (y == a) = false := by simp [hya]
      simp only [List.lookup_cons, hya'] at hv
      simp only [List.map_cons, List.mem_cons]
      exact Or.inr (ih y v hv)

theorem GoodMonthly_dictUpdate (m : List (Nat × List Nat)) (cy : Nat)
    (vals : List Nat) (k : Nat) (h : GoodMonthly m) :
    GoodMonthly (dictUpdate m cy vals k) := by
  obtain ⟨hlen, hnd⟩ := h
  constructor
  · intro y v hv
    by_cases hy : y = cy
    · subst hy
      rw [bucketOf_dictUpdate_self] at hv
      injection hv with hv
      subst hv
      rw [addVals_length]
      cases hb : bucketOf m y with
      | some b => simp only [hb, Option.getD_some]; exact hlen y b hb
      | none => simp [hb]
    · rw [bucketOf_dictUpdate_ne m y cy hy] at hv
      exact hlen y v hv
  · rw [dictUpdate_keys]
    cases hb : (bucketOf m cy).isSome with
    | true => simpa using hnd
    | false =>
      simp only [Bool.false_eq_true, if_false]
      have hnone : List.lookup cy m = none := by
        cases hbb : List.lookup cy m with
        | some b =>
          exfalso
          revert hb
          simp [bucketOf, hbb]
        | none => rfl
      have hnm : cy ∉ m.map Prod.fst := lookup_none_not_mem m cy hnone
      rw [(List.perm_append_singleton cy _).nodup_iff]
      exact List.nodup_cons.mpr ⟨hnm, hnd⟩

theorem GoodMonthly_processLine (st : ExtractState) (raw : List Char)
    (h : GoodMonthly st.monthly) : GoodMonthly (processLine st raw).monthly := by
  rcases processLine_monthly_cases st raw with hsame | ⟨cy, vals, _, _, hupd⟩
  · rw [hsame]; exact h
  · rw [hupd]; exact GoodMonthly_dictUpdate _ cy vals _ h

theorem GoodMonthly_foldl_lines :
    ∀ (lines : List (List Char)) (st : ExtractState),
      GoodMonthly st.monthly →
      GoodMonthly ((lines.foldl processLine st)).monthly := by
  intro lines
  induction lines with
  | nil => intro st h; exact h
  | cons l ls ih =>
    intro st h
    rw [List.foldl_cons]
    exact ih _ (GoodMonthly_processLine st l h)

theorem GoodMonthly_runPages (pages : List (List Char)) :
    GoodMonthly (runPages pages).monthly := by
  unfold runPages
  have base : GoodMonthly (⟨[], none, 12⟩ : ExtractState).monthly := by
    constructor
    · intro y v hv; simp [bucketOf, List.lookup] at hv
    · simp
  generalize hst : (⟨[], none, 12⟩ : ExtractState) = st
  rw [hst] at base
  clear hst
  induction pages generalizing st with
  | nil => exact base
  | cons t ts ih =>
    rw [List.foldl_cons]
    exact ih _ (GoodMonthly_foldl_lines (splitlines t) _ base)

theorem monthRowsFor_year (m : List (Nat × List Nat)) (y : Nat)
    (r : MonthRow) (hr : r ∈ monthRowsFor m y) : r.year = y := by
  unfold monthRowsFor at hr
  obtain ⟨p, _, hpr⟩ := List.mem_map.mp hr
  rw [← hpr]

theorem monthRowsFor_map_month (m : List (Nat × List Nat)) (y : Nat)
    (vals : List Nat) (hv : bucketOf m y = some vals) :
    (monthRowsFor m y).map MonthRow.month = List.range' 1 vals.length := by
  unfold monthRowsFor
  rw [hv, Option.getD_some, List.map_map]
  have h1 : (List.enumFrom 1 vals).map
      (MonthRow.month ∘ fun p => (⟨y, p.1,
        (MONTHS_ABBR.get? (p.1 - 1)).getD [], p.2⟩ : MonthRow))
      = (List.enumFrom 1 vals).map Prod.fst :=
    List.map_congr_left (fun p _ => rfl)
  rw [h1, List.enumFrom_map_fst]

theorem monthRowsFor_map_total (m : List (Nat × List Nat)) (y : Nat)
    (vals : List Nat) (hv : bucketOf m y = some vals) :
    (monthRowsFor m y).map MonthRow.total_background_checks = vals := by
  unfold monthRowsFor
  rw [hv, Option.getD_some, List.map_map]
  have h1 : (List.enumFrom 1 vals).map
      (MonthRow.total_background_checks ∘ fun p => (⟨y, p.1,
        (MONTHS_ABBR.get? (p.1 - 1)).getD [], p.2⟩ : MonthRow))
      = (List.enumFrom 1 vals).map Prod.snd :=
    List.map_congr_left (fun p _ => rfl)
  rw [h1, List.enumFrom_map_snd]

theorem monthRowsFor_pairwise (m : List (Nat × List Nat)) (y : Nat) :
    List.Pairwise monthRowLt (monthRowsFor m y) := by
  unfold monthRowsFor
  exact List.Pairwise.map _
    (fun a b hab => Or.inr ⟨rfl, hab⟩)
    (pairwise_fst_lt_enumFrom _ 1)

theorem keys_sorted_lt (m : List (Nat × List Nat))
    (hnd : (m.map Prod.fst).Nodup) :
    List.Pairwise (· < ·)
      (List.insertionSort (· ≤ ·) (m.map Prod.fst)) := by
  have hle : List.Pairwise (· ≤ ·)
      (List.insertionSort (· ≤ ·) (m.map Prod.fst)) :=
    List.sorted_insertionSort _ _
  have hnd' : (List.insertionSort (· ≤ ·) (m.map Prod.fst)).Nodup :=
    (List.perm_insertionSort _ _).nodup_iff.mpr hnd
  exact (hle.and hnd').imp (fun h => lt_of_le_of_ne h.1 h.2)

theorem monthRowsOf_pairwise (m : List (Nat × List Nat))
    (hnd : (m.map Prod.fst).Nodup) :
    List.Pairwise monthRowLt (monthRowsOf m) := by
  unfold monthRowsOf
  rw [List.flatMap_def]
  rw [List.pairwise_flatten]
  constructor
  · intro l hl
    obtain ⟨y, _, hly⟩ := List.mem_map.mp hl
    rw [← hly]
    exact monthRowsFor_pairwise m y
  · refine List.Pairwise.map _ ?_ (keys_sorted_lt m hnd)
    intro y1 y2 h12 r hr s hs
    rw [monthRowLt]
    left
    rw [monthRowsFor_year m y1 r hr, monthRowsFor_year m y2 s hs]
    exact h12

theorem monthRowsOf_sorted_le (m : List (Nat × List Nat))
    (hnd : (m.map Prod.fst).Nodup) :
    List.Sorted monthRowLe (monthRowsOf m) :=
  (monthRowsOf_pairwise m hnd).imp
    (fun h => h.elim Or.inl (fun h2 => Or.inr ⟨h2.1, Nat.le_of_lt h2.2⟩))

/-- When the extraction succeeds, its value is the flattened accumulator:
the final `sort_values(["year", "month"])` leaves the already-sorted row
list unchanged. -/
theorem extract_monthlies_ok_eq (pages : List (List Char))
    (df : List MonthRow) (h : extract_monthlies_by_year pages = .ok df) :
    df = monthRowsOf (runPages pages).monthly := by
  rw [(monthlies_ok_elim pages df h).1]
  exact List.Sorted.insertionSort_eq
    (monthRowsOf_sorted_le _ (GoodMonthly_runPages pages).2)

/-- A year with a (necessarily 12-entry) bucket contributes rows, so the
flattened row list is nonempty and the extraction succeeds. -/
theorem monthRowsOf_ne_nil (m : List (Nat × List Nat)) (y : Nat)
    (vals : List Nat) (hv : bucketOf m y = some vals) (hne : vals ≠ []) :
    monthRowsOf m ≠ [] := by
  obtain ⟨v, vs, rfl⟩ := List.exists_cons_of_ne_nil hne
  have hy : y ∈ List.insertionSort (· ≤ ·) (m.map Prod.fst) :=
    (List.perm_insertionSort _ _).mem_iff.mpr (lookup_some_mem m y _ hv)
  have hr : (⟨y, 1, (MONTHS_ABBR.get? 0).getD [], v⟩ : MonthRow)
      ∈ monthRowsFor m y := by
    unfold monthRowsFor
    rw [hv, Option.getD_some]
    exact List.mem_map.mpr ⟨(1, v), by simp [List.enumFrom], rfl⟩
  exact List.ne_nil_of_mem (List.mem_flatMap.mpr ⟨y, hy, hr⟩)

theorem flatMap_single {α β : Type} (g : α → List β) :
    ∀ (l : List α) (y : α), l.Nodup → y ∈ l →
      (∀ x ∈ l, x ≠ y → g x = []) →
      l.flatMap g = g y := by
  intro l
  induction l with
  | nil => intro y _ hy; simp at hy
  | cons x xs ih =>
    intro y hnd hy hz
    rw [List.flatMap_cons]
    rcases List.mem_cons.mp hy with rfl | hy'
    · have hrest : xs.flatMap g = [] := by
        apply List.flatMap_eq_nil_iff.mpr
        intro a ha
        exact hz a (List.mem_cons_of_mem _ ha)
          (fun hae => (List.nodup_cons.mp hnd).1 (hae ▸ ha))
      rw [hrest, List.append_nil]
    · have hx : g x = [] :=
        hz x (List.mem_cons_self x xs)
          (fun hxe => (List.nodup_cons.mp hnd).1 (hxe ▸ hy'))
      rw [hx, List.nil_append]
      exact ih y (List.nodup_cons.mp hnd).2 hy'
        (fun a ha => hz a (List.mem_cons_of_mem _ ha))

theorem filter_monthRowsOf (m : List (Nat × List Nat)) (y : Nat)
    (vals : List Nat) (hnd : (m.map Prod.fst).Nodup)
    (hv : bucketOf m y = some vals) :
    (monthRowsOf m).filter (fun r => r.year = y) = monthRowsFor m y := by
  unfold monthRowsOf
  rw [List.filter_flatMap]
  have hy : y ∈ List.insertionSort (· ≤ ·) (m.map Prod.fst) :=
    (List.perm_insertionSort _ _).mem_iff.mpr (lookup_some_mem m y vals hv)
  have hnd' : (List.insertionSort (· ≤ ·) (m.map Prod.fst)).Nodup :=
    (List.perm_insertionSort _ _).nodup_iff.mpr hnd
  rw [flatMap_single _ _ y hnd' hy ?_]
  · exact List.filter_eq_self.mpr
      (fun r hr => by simp [monthRowsFor_year m y r hr])
  · intro x _ hxy
    exact List.filter_eq_nil_iff.mpr
      (fun r hr => by simp [monthRowsFor_year m x r hr, hxy])

theorem mem_of_mem_dedupAdj :
    ∀ (l : List Nat) (a : Nat), a ∈ dedupAdj l → a ∈ l := by
  intro l
  induction l with
  | nil => intro a ha; simp [dedupAdj] at ha
  | cons x tail ih =>
    cases tail with
    | nil => intro a ha; simpa [dedupAdj] using ha
    | cons y r =>
      intro a ha
      by_cases hxy : x = y
      · simp only [dedupAdj, if_pos hxy] at ha
        exact List.mem_cons_of_mem x (ih a ha)
      · simp only [dedupAdj, if_neg hxy] at ha
        rcases List.mem_cons.mp ha with rfl | ha'
        · exact List.mem_cons_self _ _
        · exact List.mem_cons_of_mem x (ih a ha')

theorem mem_dedupAdj_of_mem :
    ∀ (l : List Nat) (a : Nat), a ∈ l → a ∈ dedupAdj l := by
  intro l
  induction l with
  | nil => intro a ha; simp at ha
  | cons x tail ih =>
    cases tail with
    | nil => intro a ha; simpa [dedupAdj] using ha
    | cons y r =>
      intro a ha
      by_cases hxy : x = y
      · simp only [dedupAdj, if_pos hxy]
        rcases List.mem_cons.mp ha with rfl | ha'
        · exact ih a (hxy ▸ List.mem_cons_self _ _)
        · exact ih a ha'
      · simp only [dedupAdj, if_neg hxy]
        rcases List.mem_cons.mp ha with rfl | ha'
        · exact List.mem_cons_self _ _
        · exact List.mem_cons_of_mem x (ih a ha')

theorem dedupAdj_pairwise_lt :
    ∀ (l : List Nat), List.Pairwise (· ≤ ·) l →
      List.Pairwise (· < ·) (dedupAdj l) := by
  intro l
  induction l with
  | nil => intro _; simp [dedupAdj]
  | cons x tail ih =>
    cases tail with
    | nil => intro _; simp [dedupAdj]
    | cons y r =>
      intro hpw
      have hx := List.pairwise_cons.mp hpw
      by_cases hxy : x = y
      · simp only [dedupAdj, if_pos hxy]
        exact ih hx.2
      · simp only [dedupAdj, if_neg hxy]
        refine List.Pairwise.cons ?_ (ih hx.2)
        intro z hz
        have hzmem := mem_of_mem_dedupAdj _ z hz
        have hxlty : x < y :=
          lt_of_le_of_ne (hx.1 y (List.mem_cons_self _ _)) hxy
        rcases List.mem_cons.mp hzmem with rfl | hzr
        · exact hxlty
        · exact lt_of_lt_of_le hxlty ((List.pairwise_cons.mp hx.2).1 z hzr)

/-- C10: whenever the monthly extraction produces a dataframe, its rows
are strictly ascending by (year, month) and every year with any row has
exactly the 12 rows for months 1..12 (zero-valued months included);
whenever the yearly extraction produces a dataframe, its rows are
strictly ascending by year. -/
theorem C10_output_ordering (pages : List (List Char)) :
    (∀ df, extract_monthlies_by_year pages = .ok df →
      List.Pairwise monthRowLt df ∧
      ∀ y, (∃ r ∈ df, r.year = y) →
        (df.filter (fun r => r.year = y)).map MonthRow.month
          = List.range' 1 12) ∧
    (∀ ydf, extract_totals_by_year pages = .ok ydf →
      List.Pairwise (· < ·) (ydf.map YearRow.year)) := by
  have hgood := GoodMonthly_runPages pages
  constructor
  · intro df hdf
    have heq := extract_monthlies_ok_eq pages df hdf
    constructor
    · rw [heq]
      exact monthRowsOf_pairwise _ hgood.2
    · rintro y ⟨r, hr, hry⟩
      rw [heq] at hr
      obtain ⟨y', vals, i, v, hv, henum, hreq⟩ := mem_monthRowsOf _ r hr
      have hyy : y' = y := by
        rw [hreq] at hry
        exact hry
      subst hyy
      rw [heq, filter_monthRowsOf _ y' vals hgood.2 hv,
        monthRowsFor_map_month _ y' vals hv, hgood.1 y' vals hv]
  · intro ydf hydf
    have hmk : ∀ (l : List Nat) (f : Nat → YearRow),
        (∀ a, (f a).year = a) → (l.map f).map YearRow.year = l := by
      intro l f hf
      rw [List.map_map]
      calc l.map (YearRow.year ∘ f) = l.map id :=
            List.map_congr_left (fun a _ => hf a)
        _ = l := List.map_id l
    cases hm : extract_monthlies_by_year pages with
    | error e =>
      simp only [extract_totals_by_year, hm] at hydf
      cases hydf
    | ok df =>
      simp only [extract_totals_by_year, hm] at hydf
      split at hydf
      · injection hydf with h
        subst h
        exact List.Pairwise.nil
      · injection hydf with h
        subst h
        rw [hmk _ _ (fun a => rfl)]
        unfold groupYears
        exact dedupAdj_pairwise_lt _ (List.sorted_insertionSort _ _)

theorem C10_output_ordering_witness :
    (([⟨2020, 1, "Jan".data, 10⟩, ⟨2020, 2, "Feb".data, 20⟩,
       ⟨2020, 3, "Mar".data, 0⟩, ⟨2020, 4, "Apr".data, 0⟩,
       ⟨2020, 5, "May".data, 0⟩, ⟨2020, 6, "Jun".data, 0⟩,
       ⟨2020, 7, "Jul".data, 0⟩, ⟨2020, 8, "Aug".data, 0⟩,
       ⟨2020, 9, "Sep".data, 0⟩, ⟨2020, 10, "Oct".data, 0⟩,
       ⟨2020, 11, "Nov".data, 0⟩, ⟨2020, 12, "Dec".data, 0⟩] :
          List MonthRow).filter (fun r => r.year = 2020)).map MonthRow.month
      = List.range' 1 12 ∧
    List.Pairwise (· < ·)
      (([⟨2020, 30, "sum_of_months".data⟩] : List YearRow).map YearRow.year) :=
  ⟨((C10_output_ordering
      ["January 1, 2020 - February 29, 2020\nYear 2020\nAlabama 10 20 30".data]).1
      [⟨2020, 1, "Jan".data, 10⟩, ⟨2020, 2, "Feb".data, 20⟩,
       ⟨2020, 3, "Mar".data, 0⟩, ⟨2020, 4, "Apr".data, 0⟩,
       ⟨2020, 5, "May".data, 0⟩, ⟨2020, 6, "Jun".data, 0⟩,
       ⟨2020, 7, "Jul".data, 0⟩, ⟨2020, 8, "Aug".data, 0⟩,
       ⟨2020, 9, "Sep".data, 0⟩, ⟨2020, 10, "Oct".data, 0⟩,
       ⟨2020, 11, "Nov".data, 0⟩, ⟨2020, 12, "Dec".data, 0⟩] rfl).2 2020
      ⟨⟨2020, 1, "Jan".data, 10⟩, by decide, rfl⟩,
   (C10_output_ordering
      ["January 1, 2020 - February 29, 2020\nYear 2020\nAlabama 10 20 30".data]).2
      [⟨2020, 30, "sum_of_months".data⟩] rfl⟩

/-- C2: for every year present in the accumulated data, the monthly
extraction succeeds and holds that year's 12 month buckets verbatim
(unreported months as zero), and the yearly extraction succeeds with a row
for that year whose total is the sum of those 12 buckets. -/
theorem C2_yearly_total_roundtrip (pages : List (List Char)) (y : Nat)
    (vals : List Nat)
    (hy : bucketOf (runPages pages).monthly y = some vals) :
    vals.length = 12 ∧
    ∃ df, extract_monthlies_by_year pages = .ok df ∧
      (df.filter (fun r => r.year = y)).map MonthRow.total_background_checks
        = vals ∧
      ∃ ydf, extract_totals_by_year pages = .ok ydf ∧
        ∃ r ∈ ydf, r.year = y ∧ r.total_background_checks = vals.sum := by
  have hgood := GoodMonthly_runPages pages
  have hlen := hgood.1 y vals hy
  have hvne : vals ≠ [] := by
    intro h0
    rw [h0] at hlen
    simp at hlen
  have hrowsne := monthRowsOf_ne_nil _ y vals hy hvne
  have hsorted : List.insertionSort monthRowLe
      (monthRowsOf (runPages pages).monthly)
      = monthRowsOf (runPages pages).monthly :=
    List.Sorted.insertionSort_eq (monthRowsOf_sorted_le _ hgood.2)
  have hok : extract_monthlies_by_year pages
      = .ok (monthRowsOf (runPages pages).monthly) := by
    rw [monthlies_ok_of_ne_nil pages hrowsne, hsorted]
  have hfil : (monthRowsOf (runPages pages).monthly).filter
      (fun r => r.year = y) = monthRowsFor (runPages pages).monthly y :=
    filter_monthRowsOf _ y vals hgood.2 hy
  have htot : ((monthRowsOf (runPages pages).monthly).filter
      (fun r => r.year = y)).map MonthRow.total_background_checks = vals := by
    rw [hfil]
    exact monthRowsFor_map_total _ y vals hy
  refine ⟨hlen, monthRowsOf (runPages pages).monthly, hok, htot, ?_⟩
  have hmne : (monthRowsOf (runPages pages).monthly).isEmpty = false := by
    simpa [List.isEmpty_iff] using hrowsne
  have hseg_ne : monthRowsFor (runPages pages).monthly y ≠ [] := by
    unfold monthRowsFor
    rw [hy, Option.getD_some]
    intro hnil
    have hl := congrArg List.length hnil
    simp [hlen] at hl
  obtain ⟨r0, hr0⟩ := List.exists_mem_of_ne_nil _ hseg_ne
  have hr0' : r0 ∈ (monthRowsOf (runPages pages).monthly).filter
      (fun r => r.year = y) := by
    rw [hfil]
    exact hr0
  have hr0df := (List.mem_filter.mp hr0').1
  have hr0y : r0.year = y := by simpa using (List.mem_filter.mp hr0').2
  have hymem : y ∈ (monthRowsOf (runPages pages).monthly).map MonthRow.year :=
    List.mem_map.mpr ⟨r0, hr0df, hr0y⟩
  have hygroup : y ∈ groupYears (monthRowsOf (runPages pages).monthly) := by
    unfold groupYears
    exact mem_dedupAdj_of_mem _ y
      ((List.perm_insertionSort _ _).mem_iff.mpr hymem)
  refine ⟨(groupYears (monthRowsOf (runPages pages).monthly)).map fun y' =>
      ⟨y', (((monthRowsOf (runPages pages).monthly).filter
        (fun r => r.year = y')).map MonthRow.total_background_checks).sum,
        "sum_of_months".data⟩, ?_, ?_⟩
  · unfold extract_totals_by_year
    rw [hok]
    simp only [hmne, Bool.false_eq_true, if_false]
  · refine ⟨_, List.mem_map.mpr ⟨y, hygroup, rfl⟩, rfl, ?_⟩
    rw [htot]

theorem C2_yearly_total_roundtrip_witness :
    ∃ df, extract_monthlies_by_year
        ["January 1, 2020 - February 29, 2020\nYear 2020\nAlabama 10 20 30".data]
        = .ok df ∧
      (df.filter (fun r => r.year = 2020)).map MonthRow.total_background_checks
        = [10, 20, 0, 0, 0, 0, 0, 0, 0, 0, 0, 0] ∧
      ∃ ydf, extract_totals_by_year
          ["January 1, 2020 - February 29, 2020\nYear 2020\nAlabama 10 20 30".data]
          = .ok ydf ∧
        ∃ r ∈ ydf, r.year = 2020 ∧ r.total_background_checks = 30 :=
  (C2_yearly_total_roundtrip
      ["January 1, 2020 - February 29, 2020\nYear 2020\nAlabama 10 20 30".data]
      2020 [10, 20, 0, 0, 0, 0, 0, 0, 0, 0, 0, 0] (by decide)).2

/-! ## CLI claims -/

theorem dedupAdj_eq_nil_iff (l : List Nat) : dedupAdj l = [] ↔ l = [] := by
  induction l with
  | nil => simp [dedupAdj]
  | cons x rest ih =>
    cases rest with
    | nil => simp [dedupAdj]
    | cons y r =>
      by_cases hxy : x = y <;> simp [dedupAdj, hxy] at ih ⊢
      exact ih

theorem groupYears_ne_nil (rows : List MonthRow) (h : rows ≠ []) :
    groupYears rows ≠ [] := by
  unfold groupYears
  rw [Ne, dedupAdj_eq_nil_iff]
  intro hs
  have := List.perm_insertionSort (fun a b : Nat => a ≤ b) (rows.map MonthRow.year)
  rw [hs] at this
  have := this.symm.length_eq
  simp at this
  exact h (List.eq_nil_of_length_eq_zero (by simp [this]))

/-- When the monthly extraction yields a (necessarily nonempty) dataframe,
the yearly extraction yields the per-year sums; it never returns an empty
frame on that path. -/
theorem extract_totals_ok (pages : List (List Char)) (df : List MonthRow)
    (h : extract_monthlies_by_year pages = .ok df) :
    extract_totals_by_year pages =
      .ok ((groupYears df).map fun y =>
        { year := y
          total_background_checks :=
            ((df.filter fun r => r.year = y).map
              MonthRow.total_background_checks).sum
          basis := "sum_of_months".data }) ∧
    df ≠ [] ∧ groupYears df ≠ [] := by
  obtain ⟨hdf_eq, hrowsne⟩ := monthlies_ok_elim pages df h
  have hdfne : df ≠ [] := by
    intro h0
    have hperm := List.perm_insertionSort monthRowLe
      (monthRowsOf (runPages pages).monthly)
    rw [← hdf_eq, h0] at hperm
    exact hrowsne hperm.symm.eq_nil
  have hmempty : df.isEmpty = false := by
    simpa [List.isEmpty_iff] using hdfne
  refine ⟨?_, hdfne, ?_⟩
  · unfold extract_totals_by_year
    rw [h]
    simp only [hmempty, Bool.false_eq_true, if_false]
  · exact groupYears_ne_nil df hdfne

/-- C8: invoked with no positional argument, or with a path that does not
exist, `main` prints one user-facing message and stops with exit status 1:
no output file is written, and the result does not depend on the PDF
content at all. -/
theorem C8_missing_arg_or_file (argv : List String) (pathExists : Bool)
    (pages : List (List Char)) :
    (argv.length < 2 →
      mainModel argv pathExists pages =
        { exitCode := 1, printed := [usageMessage], wroteFiles := false }) ∧
    (2 ≤ argv.length → pathExists = false →
      mainModel argv pathExists pages =
        { exitCode := 1,
          printed := [fileNotFoundMessage ((argv.get? 1).getD "")],
          wroteFiles := false }) := by
  constructor
  · intro h
    simp only [mainModel, if_pos h]
  · intro h hpe
    simp only [mainModel, if_neg (by omega : ¬ argv.length < 2), hpe,
      Bool.not_false, if_true]

theorem C8_missing_arg_or_file_witness :
    mainModel ["nics_total_by_year.py"] true [] =
      { exitCode := 1, printed := [usageMessage], wroteFiles := false } ∧
    mainModel ["nics_total_by_year.py", "checks.pdf"] false [] =
      { exitCode := 1,
        printed := [fileNotFoundMessage "checks.pdf"],
        wroteFiles := false } :=
  ⟨(C8_missing_arg_or_file ["nics_total_by_year.py"] true []).1 (by decide),
   (C8_missing_arg_or_file ["nics_total_by_year.py", "checks.pdf"] false []).2
      (by decide) rfl⟩

/-- C1 counterexample: on an existing PDF whose single page yields no text
no totals are extracted; the claim predicts a printed no-data message and
exit status 2, but `extract_monthlies_by_year` raises an uncaught
`KeyError` on the `year` sort key of the empty dataframe, so `main` aborts
with exit status 1 — not 2 — printing only the interpreter traceback,
never the no-data message, and writing no CSV file. -/
theorem C1_no_data_exit_counterexample :
    extract_monthlies_by_year [[]] = .error "year" ∧
    (mainModel ["nics_total_by_year.py", "checks.pdf"] true [[]]).exitCode = 1 ∧
    (mainModel ["nics_total_by_year.py", "checks.pdf"] true [[]]).exitCode ≠ 2 ∧
    (mainModel ["nics_total_by_year.py", "checks.pdf"] true [[]]).wroteFiles
      = false ∧
    noYearTotalsMessage ∉
      (mainModel ["nics_total_by_year.py", "checks.pdf"] true [[]]).printed :=
  ⟨rfl, rfl, by decide, rfl, by decide⟩

/-- C1 (amended): with a positional argument and an existing file, an
extraction error — the uncaught `KeyError` raised exactly when no totals
are extracted — aborts `main` with exit status 1, not 2, before any
message of its own is printed or any file written; when extraction
succeeds (at least one total), `main` prints the table headers, writes
both CSV files and terminates with exit status 0. -/
theorem C1_no_data_exit_amended (argv : List String) (pages : List (List Char))
    (hargs : 2 ≤ argv.length) :
    (∀ e, extract_monthlies_by_year pages = .error e →
      mainModel argv true pages =
        { exitCode := 1, printed := [tracebackMessage e],
          wroteFiles := false }) ∧
    (∀ df, extract_monthlies_by_year pages = .ok df →
      mainModel argv true pages =
        { exitCode := 0, printed := [yearTableHeader, monthTableHeader],
          wroteFiles := true }) := by
  constructor
  · intro e he
    simp only [mainModel, if_neg (by omega : ¬ argv.length < 2),
      Bool.not_true, Bool.false_eq_true, if_false, he]
  · intro df hdf
    obtain ⟨htot, hdfne, hgne⟩ := extract_totals_ok pages df hdf
    have hmempty : df.isEmpty = false := by
      simpa [List.isEmpty_iff] using hdfne
    have hyempty : ((groupYears df).map fun y =>
        ({ year := y
           total_background_checks :=
             ((df.filter fun r => r.year = y).map
               MonthRow.total_background_checks).sum
           basis := "sum_of_months".data } : YearRow)).isEmpty = false := by
      simpa [List.isEmpty_iff, List.map_eq_nil_iff] using hgne
    simp only [mainModel, if_neg (by omega : ¬ argv.length < 2),
      Bool.not_true, Bool.false_eq_true, if_false, hdf, htot, hyempty,
      hmempty, Bool.not_false, if_true]
    rfl

theorem C1_no_data_exit_amended_witness :
    mainModel ["nics_total_by_year.py", "checks.pdf"] true [[]] =
      { exitCode := 1, printed := [tracebackMessage "year"],
        wroteFiles := false } ∧
    mainModel ["nics_total_by_year.py", "checks.pdf"] true
        ["Year 2019\nAlabama 1 2 3 4 5 6 7 8 9 10 11 12 78".data] =
      { exitCode := 0, printed := [yearTableHeader, monthTableHeader],
        wroteFiles := true } :=
  ⟨(C1_no_data_exit_amended ["nics_total_by_year.py", "checks.pdf"] [[]]
      (by decide)).1 "year" rfl,
   (C1_no_data_exit_amended ["nics_total_by_year.py", "checks.pdf"]
      ["Year 2019\nAlabama 1 2 3 4 5 6 7 8 9 10 11 12 78".data]
      (by decide)).2 _ rfl⟩

end NICS
